import Mathlib

/-!
Verification of the MPS Failover Land (failover.c).

The Failover composes two child Lands (a primary and a secondary) behind the
single abstract Land interface.  The failover code itself (failoverSize,
failoverInsert, failoverInsertSteal, failoverDelete, failoverDeleteSteal,
failoverIterate, failoverFindFirst, failoverFindLast, failoverFindLargest,
failoverFindInZones) is embedded below as pure state-passing functions that
are parametric in the behaviour of the two children: in the C source the
children are reached through a vtable (LandInsert, LandDelete, ...), so each
child is modelled here as an opaque state type together with a record of
operation functions.  C out-parameters (rangeReturn, oldRangeReturn,
foundReturn) are modelled as returned values; AVER assertions are compiled
out (as in a hot build) and the asserted facts are proved as theorems
instead.

The concrete child implementations (CBS, Freelist) and the generic land.c
code (LandFlush) are not part of the source under verification; where a
claim depends on child behaviour, a model child Land is defined from the
specification's Land contract (marked "Modelled from the spec").
-/

/-- A half-open interval [base, limit) of addresses (RangeStruct in range.h).
Addresses are modelled as natural numbers. -/
structure Range where
  base : Nat
  limit : Nat
deriving DecidableEq

/-- RangeIsEmpty: a range is empty iff base equals limit. -/
def Range.isEmpty (r : Range) : Bool := r.base == r.limit

/-- The set of addresses covered by a range. -/
def Range.addrs (r : Range) : Finset Nat := Finset.Ico r.base r.limit

/-- Result codes (Res in mps.h).  ResIO is omitted: it plays the same role
as any other non-OK, non-FAIL code and never appears in the failover code. -/
inductive Res where
  | OK
  | FAIL
  | RESOURCE
  | MEMORY
  | LIMIT
  | UNIMPL
  | COMMIT_LIMIT
  | PARAM
deriving DecidableEq

/-- ResIsAllocFailure: the codes that indicate the child could not allocate
metadata to represent the mutation. -/
def ResIsAllocFailure (res : Res) : Bool :=
  res == Res.MEMORY || res == Res.RESOURCE || res == Res.COMMIT_LIMIT

/-- FindDelete parameter of the find operations (mps.h). -/
inductive FindDelete where
  | NONE
  | LOW
  | HIGH
  | ENTIRE
deriving DecidableEq

/-- Zone sets are opaque to the failover code; it only passes them through. -/
abbrev ZoneSet := Nat

/-- The abstract Land interface as seen by the failover code through the
vtable: each child is a state of type σ together with these operations.
Visitor closures for iterate have type α.  Out-parameters are modelled as
components of the returned tuple, new child state last. -/
structure LandOps (σ α : Type) where
  size : σ → Nat
  insert : σ → Range → Res × Range × σ
  insertSteal : σ → Range → Res × Range × Range × σ
  delete : σ → Range → Res × Range × σ
  deleteSteal : σ → Range → Res × Range × σ
  iterate : σ → (Range → α → Bool × α) → α → Bool × α × σ
  findFirst : σ → Nat → FindDelete → Bool × Range × Range × σ
  findLast : σ → Nat → FindDelete → Bool × Range × Range × σ
  findLargest : σ → Nat → FindDelete → Bool × Range × Range × σ
  findInZones : σ → Nat → ZoneSet → Bool → Res × Bool × Range × Range × σ

/-- FailoverStruct: the two child Lands (states plus operations) and the
LandFlush operation that migrates the secondary into the primary
(LandFlush(fo->primary, fo->secondary) in the C source; its Bool result is
always ignored by the failover code). -/
structure Failover (σP σS α : Type) where
  primaryOps : LandOps σP α
  secondaryOps : LandOps σS α
  flush : σP → σS → Bool × σP × σS
  primary : σP
  secondary : σS

/-- The `(void)LandFlush(fo->primary, fo->secondary)` call that starts most
failover operations: both child states are updated, the result is dropped. -/
def failoverFlush (fo : Failover σP σS α) : Failover σP σS α :=
  { fo with
    primary := (fo.flush fo.primary fo.secondary).2.1
    secondary := (fo.flush fo.primary fo.secondary).2.2 }

/-- failoverSize: returns LandSize(primary) + LandSize(secondary). -/
def failoverSize (fo : Failover σP σS α) : Nat :=
  fo.primaryOps.size fo.primary + fo.secondaryOps.size fo.secondary

/-- failoverInsert: flush the secondary into the primary, try the primary;
on any result other than ResOK or ResFAIL retry on the secondary. -/
def failoverInsert (fo : Failover σP σS α) (range : Range) :
    Res × Range × Failover σP σS α :=
  let fo1 := failoverFlush fo
  let t := fo1.primaryOps.insert fo1.primary range
  let fo2 := { fo1 with primary := t.2.2 }
  if t.1 ≠ Res.OK ∧ t.1 ≠ Res.FAIL then
    let u := fo2.secondaryOps.insert fo2.secondary range
    (u.1, u.2.1, { fo2 with secondary := u.2.2 })
  else
    (t.1, t.2.1, fo2)

/-- failoverInsertSteal: flush, then LandInsertSteal on the primary only.
The result components are (res, rangeReturn, rangeInOut after possible
clipping, new failover).  The AVER(res == ResOK || res == ResFAIL) is
compiled out; the corresponding fact is proved from the child contract. -/
def failoverInsertSteal (fo : Failover σP σS α) (rangeInOut : Range) :
    Res × Range × Range × Failover σP σS α :=
  let fo1 := failoverFlush fo
  let t := fo1.primaryOps.insertSteal fo1.primary rangeInOut
  (t.1, t.2.1, t.2.2.1, { fo1 with primary := t.2.2.2 })

/-- One fragment re-insertion step of failoverDelete's recovery path: try
the primary; if that does not return ResOK, insert into the secondary (the
AVER(res != ResFAIL) and AVER(res == ResOK) are compiled out). -/
def reinsertFragment (fo : Failover σP σS α) (frag : Range) :
    Res × Failover σP σS α :=
  let t := fo.primaryOps.insert fo.primary frag
  let fo1 := { fo with primary := t.2.2 }
  if t.1 ≠ Res.OK then
    let u := fo1.secondaryOps.insert fo1.secondary frag
    (u.1, { fo1 with secondary := u.2.2 })
  else
    (t.1, fo1)

/-- failoverDelete.  `rangeReturn0` is the caller's rangeReturn cell before
the call; it is returned unchanged on the paths where the C code returns
without writing *rangeReturn.  Following the C source: flush, delete from
the primary; on ResFAIL delegate to the secondary; on ResOK return the old
range; otherwise (the primary found the containing range but could not
represent the residuals) delete the whole old range from the primary and
re-insert the non-empty fragments, each tried on the primary first. -/
def failoverDelete (fo : Failover σP σS α) (rangeReturn0 : Range)
    (range : Range) : Res × Range × Failover σP σS α :=
  let fo1 := failoverFlush fo
  let t := fo1.primaryOps.delete fo1.primary range
  let fo2 := { fo1 with primary := t.2.2 }
  if t.1 = Res.FAIL then
    let u := fo2.secondaryOps.delete fo2.secondary range
    (u.1, u.2.1, { fo2 with secondary := u.2.2 })
  else if t.1 = Res.OK then
    (Res.OK, t.2.1, fo2)
  else
    let d := fo2.primaryOps.delete fo2.primary t.2.1
    let fo3 := { fo2 with primary := d.2.2 }
    if d.1 ≠ Res.OK then
      (d.1, rangeReturn0, fo3)
    else
      let left : Range := ⟨t.2.1.base, range.base⟩
      let a := if ¬ left.isEmpty then reinsertFragment fo3 left else (Res.OK, fo3)
      let right : Range := ⟨range.limit, t.2.1.limit⟩
      let b := if ¬ right.isEmpty then reinsertFragment a.2 right else a
      if b.1 = Res.OK then (Res.OK, t.2.1, b.2) else (b.1, rangeReturn0, b.2)

/-- failoverDeleteSteal: flush, LandDeleteSteal on the primary, on ResFAIL
retry on the secondary (AVER(res == ResOK || res == ResFAIL) compiled out). -/
def failoverDeleteSteal (fo : Failover σP σS α) (range : Range) :
    Res × Range × Failover σP σS α :=
  let fo1 := failoverFlush fo
  let t := fo1.primaryOps.deleteSteal fo1.primary range
  let fo2 := { fo1 with primary := t.2.2 }
  if t.1 = Res.FAIL then
    let u := fo2.secondaryOps.deleteSteal fo2.secondary range
    (u.1, u.2.1, { fo2 with secondary := u.2.2 })
  else
    (t.1, t.2.1, fo2)

/-- failoverIterate: LandIterate(primary, ...) && LandIterate(secondary, ...),
with C short-circuit evaluation of && and the visitor closure threaded
through both iterations.  No flush is performed. -/
def failoverIterate (fo : Failover σP σS α) (visitor : Range → α → Bool × α)
    (closure : α) : Bool × α × Failover σP σS α :=
  let t := fo.primaryOps.iterate fo.primary visitor closure
  let fo1 := { fo with primary := t.2.2 }
  if t.1 then
    let u := fo1.secondaryOps.iterate fo1.secondary visitor t.2.1
    (u.1, u.2.1, { fo1 with secondary := u.2.2 })
  else
    (false, t.2.1, fo1)

/-- failoverFindFirst: flush, then primary-find || secondary-find with C
short-circuit evaluation. -/
def failoverFindFirst (fo : Failover σP σS α) (size : Nat)
    (findDelete : FindDelete) : Bool × Range × Range × Failover σP σS α :=
  let fo1 := failoverFlush fo
  let t := fo1.primaryOps.findFirst fo1.primary size findDelete
  let fo2 := { fo1 with primary := t.2.2.2 }
  if t.1 then
    (true, t.2.1, t.2.2.1, fo2)
  else
    let u := fo2.secondaryOps.findFirst fo2.secondary size findDelete
    (u.1, u.2.1, u.2.2.1, { fo2 with secondary := u.2.2.2 })

/-- failoverFindLast: flush, then primary-find || secondary-find. -/
def failoverFindLast (fo : Failover σP σS α) (size : Nat)
    (findDelete : FindDelete) : Bool × Range × Range × Failover σP σS α :=
  let fo1 := failoverFlush fo
  let t := fo1.primaryOps.findLast fo1.primary size findDelete
  let fo2 := { fo1 with primary := t.2.2.2 }
  if t.1 then
    (true, t.2.1, t.2.2.1, fo2)
  else
    let u := fo2.secondaryOps.findLast fo2.secondary size findDelete
    (u.1, u.2.1, u.2.2.1, { fo2 with secondary := u.2.2.2 })

/-- failoverFindLargest: flush, then primary-find || secondary-find. -/
def failoverFindLargest (fo : Failover σP σS α) (size : Nat)
    (findDelete : FindDelete) : Bool × Range × Range × Failover σP σS α :=
  let fo1 := failoverFlush fo
  let t := fo1.primaryOps.findLargest fo1.primary size findDelete
  let fo2 := { fo1 with primary := t.2.2.2 }
  if t.1 then
    (true, t.2.1, t.2.2.1, fo2)
  else
    let u := fo2.secondaryOps.findLargest fo2.secondary size findDelete
    (u.1, u.2.1, u.2.2.1, { fo2 with secondary := u.2.2.2 })

/-- failoverFindInZones: flush, query the primary; if the primary returns a
non-OK code or reports found == false, query the secondary; the found flag
written back is the flag left by the last child queried and the returned
code is that child's code.  (The AVER_CRITICAL(FALSE) marking this code as
untested is compiled out, as in a hot build.)  Result components:
(res, found, rangeReturn, oldRangeReturn, new failover). -/
def failoverFindInZones (fo : Failover σP σS α) (size : Nat) (zoneSet : ZoneSet)
    (high : Bool) : Res × Bool × Range × Range × Failover σP σS α :=
  let fo1 := failoverFlush fo
  let t := fo1.primaryOps.findInZones fo1.primary size zoneSet high
  let fo2 := { fo1 with primary := t.2.2.2.2 }
  if t.1 ≠ Res.OK ∨ t.2.1 = false then
    let u := fo2.secondaryOps.findInZones fo2.secondary size zoneSet high
    (u.1, u.2.1, u.2.2.1, u.2.2.2.1, { fo2 with secondary := u.2.2.2.2 })
  else
    (t.1, t.2.1, t.2.2.1, t.2.2.2.1, fo2)

/-! ## A model child Land

The concrete children (CBS, Freelist) and the generic land.c code are not in
the source under verification; the definitions below model a child Land from
the specification's abstract Land contract.  They instantiate the abstract
child parameters of the failover functions, both for the claims that depend
on child semantics and as concrete witnesses for the parametric theorems. -/

/-- Two ranges overlap iff their address sets share a point (for non-empty
ranges); used by the model child to detect semantic refusal of an insert. -/
def rangesOverlap (q r : Range) : Bool :=
  q.base < r.limit && r.base < q.limit

/-- containsRange q r: q contains r (the RangesNest test of range.h). -/
def containsRange (q r : Range) : Bool :=
  q.base ≤ r.base && r.limit ≤ q.limit

/-- Modelled from the spec: a child Land is a set of disjoint non-empty
ranges; `canAlloc` says whether the child can still allocate the metadata
needed to represent a new range or a split residual (the spec's
ALLOC_FAILURE situation is `canAlloc = false`). -/
structure MLand where
  ranges : List Range
  canAlloc : Bool
deriving DecidableEq

/-- Union of the address sets of a list of ranges. -/
def addrsList : List Range → Finset Nat
  | [] => ∅
  | r :: rest => r.addrs ∪ addrsList rest

/-- The set of free addresses of a model child Land. -/
def MLand.addrs (l : MLand) : Finset Nat := addrsList l.ranges

/-- Modelled from the spec: a Land's invariant, ranges non-empty and
pairwise disjoint. -/
def MLand.wf (l : MLand) : Prop :=
  (∀ r ∈ l.ranges, r.base < r.limit) ∧
    l.ranges.Pairwise (fun a b => Disjoint a.addrs b.addrs)

instance (l : MLand) : Decidable l.wf := by
  unfold MLand.wf
  infer_instance

/-- Modelled from the spec: size() is the total number of bytes covered. -/
def mSize (l : MLand) : Nat :=
  l.ranges.foldr (fun r n => (r.limit - r.base) + n) 0

/-- Modelled from the spec: insert(range) adds the range; FAIL on semantic
refusal (overlap with an existing range), allocation failure when the child
cannot allocate metadata; no coalescence (a Land is not required to
coalesce). -/
def mInsert (l : MLand) (r : Range) : Res × Range × MLand :=
  if l.ranges.any (fun q => rangesOverlap q r) then
    (Res.FAIL, r, l)
  else if l.canAlloc then
    (Res.OK, r, { l with ranges := r :: l.ranges })
  else
    (Res.MEMORY, r, l)

/-- Modelled from the spec: delete(range) removes the range from the
pre-existing range that contains it; FAIL when no range contains it; when a
proper split is needed and the child cannot allocate metadata, the old
(containing) range is reported together with an allocation-failure code, as
the failover's recovery path requires. -/
def mDelete (l : MLand) (r : Range) : Res × Range × MLand :=
  match l.ranges.find? (fun q => containsRange q r) with
  | none => (Res.FAIL, r, l)
  | some old =>
    if old.base = r.base ∧ old.limit = r.limit then
      (Res.OK, old, { l with ranges := l.ranges.erase old })
    else if l.canAlloc then
      let frags := (if r.limit < old.limit then [(⟨r.limit, old.limit⟩ : Range)] else []) ++
        (if old.base < r.base then [(⟨old.base, r.base⟩ : Range)] else [])
      (Res.OK, old, { l with ranges := frags ++ l.ranges.erase old })
    else
      (Res.MEMORY, old, l)

/-- Modelled from the spec: the steal variant of insert never needs fresh
metadata (it can steal storage from the inserted range itself), so it
returns exactly OK or FAIL.  Components: (res, rangeReturn, rangeInOut). -/
def mInsertSteal (l : MLand) (r : Range) : Res × Range × Range × MLand :=
  if l.ranges.any (fun q => rangesOverlap q r) then
    (Res.FAIL, r, r, l)
  else
    (Res.OK, r, r, { l with ranges := r :: l.ranges })

/-- Modelled from the spec: the steal variant of delete removes exactly the
range that is there, never needs fresh metadata, returns OK or FAIL. -/
def mDeleteSteal (l : MLand) (r : Range) : Res × Range × MLand :=
  match l.ranges.find? (fun q => containsRange q r) with
  | none => (Res.FAIL, r, l)
  | some old =>
    let frags := (if r.limit < old.limit then [(⟨r.limit, old.limit⟩ : Range)] else []) ++
      (if old.base < r.base then [(⟨old.base, r.base⟩ : Range)] else [])
    (Res.OK, old, { l with ranges := frags ++ l.ranges.erase old })

/-- Modelled from the spec: iterate visits every range in the child's own
order and stops when the visitor returns false. -/
def landIterate (ranges : List Range) (visitor : Range → α → Bool × α)
    (closure : α) : Bool × α :=
  match ranges with
  | [] => (true, closure)
  | r :: rest =>
    let t := visitor r closure
    if t.1 then landIterate rest visitor t.2 else (false, t.2)

/-- The model child's iterate; plain iteration never mutates the Land. -/
def mIterate (l : MLand) (visitor : Range → α → Bool × α) (closure : α) :
    Bool × α × MLand :=
  ((landIterate l.ranges visitor closure).1,
   (landIterate l.ranges visitor closure).2, l)

/-- The part of a found range selected by the findDelete argument. -/
def findDeletePart (findDelete : FindDelete) (size : Nat) (q : Range) : Range :=
  match findDelete with
  | FindDelete.NONE => q
  | FindDelete.LOW => ⟨q.base, q.base + size⟩
  | FindDelete.HIGH => ⟨q.limit - size, q.limit⟩
  | FindDelete.ENTIRE => q

/-- The child state after the optional delete of a find operation: the found
part is removed from the containing range q (an end trim or whole-range
removal, which a child can do without fresh metadata). -/
def findDeleteApply (findDelete : FindDelete) (size : Nat) (q : Range)
    (l : MLand) : MLand :=
  match findDelete with
  | FindDelete.NONE => l
  | FindDelete.LOW =>
    { l with ranges :=
        (if q.base + size < q.limit then [(⟨q.base + size, q.limit⟩ : Range)] else []) ++
          l.ranges.erase q }
  | FindDelete.HIGH =>
    { l with ranges :=
        (if q.base < q.limit - size then [(⟨q.base, q.limit - size⟩ : Range)] else []) ++
          l.ranges.erase q }
  | FindDelete.ENTIRE => { l with ranges := l.ranges.erase q }

/-- Modelled from the spec: find_first locates the lowest-addressed range of
at least `size` bytes and optionally deletes the found part. -/
def mFindFirst (l : MLand) (size : Nat) (findDelete : FindDelete) :
    Bool × Range × Range × MLand :=
  let candidates := l.ranges.filter (fun q => size ≤ q.limit - q.base)
  match candidates.foldr (fun q acc =>
      match acc with
      | none => some q
      | some w => if q.base < w.base then some q else some w) none with
  | none => (false, ⟨0, 0⟩, ⟨0, 0⟩, l)
  | some q => (true, findDeletePart findDelete size q, q,
      findDeleteApply findDelete size q l)

/-- Modelled from the spec: find_last locates the highest-addressed range of
at least `size` bytes. -/
def mFindLast (l : MLand) (size : Nat) (findDelete : FindDelete) :
    Bool × Range × Range × MLand :=
  let candidates := l.ranges.filter (fun q => size ≤ q.limit - q.base)
  match candidates.foldr (fun q acc =>
      match acc with
      | none => some q
      | some w => if w.base < q.base then some q else some w) none with
  | none => (false, ⟨0, 0⟩, ⟨0, 0⟩, l)
  | some q => (true, findDeletePart findDelete size q, q,
      findDeleteApply findDelete size q l)

/-- Modelled from the spec: find_largest locates the largest range, and
reports a hit iff that range has at least `size` bytes. -/
def mFindLargest (l : MLand) (size : Nat) (findDelete : FindDelete) :
    Bool × Range × Range × MLand :=
  match l.ranges.foldr (fun q acc =>
      match acc with
      | none => some q
      | some w => if w.limit - w.base < q.limit - q.base then some q else some w) none with
  | none => (false, ⟨0, 0⟩, ⟨0, 0⟩, l)
  | some q =>
    if size ≤ q.limit - q.base then
      (true, findDeletePart findDelete size q, q, findDeleteApply findDelete size q l)
    else
      (false, ⟨0, 0⟩, ⟨0, 0⟩, l)

/-- Modelled from the spec: a toy zone discipline for the model child (the
zone of an address is `address mod 64`); find_in_zones reports the first
range of at least `size` bytes whose base lies in the zone set. -/
def mFindInZones (l : MLand) (size : Nat) (zoneSet : ZoneSet) (high : Bool) :
    Res × Bool × Range × Range × MLand :=
  let dir := if high then l.ranges.reverse else l.ranges
  match dir.find? (fun q =>
      decide (size ≤ q.limit - q.base) && decide (Nat.testBit zoneSet (q.base % 64))) with
  | none => (Res.OK, false, ⟨0, 0⟩, ⟨0, 0⟩, l)
  | some q => (Res.OK, true, q, q, l)

/-- The model child's operation record. -/
def mOps : LandOps MLand α :=
  { size := mSize
    insert := mInsert
    insertSteal := mInsertSteal
    delete := mDelete
    deleteSteal := mDeleteSteal
    iterate := mIterate
    findFirst := mFindFirst
    findLast := mFindLast
    findLargest := mFindLargest
    findInZones := mFindInZones }

/-- Modelled from the spec: LandFlush's best-effort migration loop over the
source's ranges, trying to insert each into the destination and keeping in
the source the ones the destination refuses. -/
def mflushGo (p : MLand) (pending : List Range) : MLand × List Range :=
  match pending with
  | [] => (p, [])
  | r :: rest =>
    let t := mInsert p r
    if t.1 = Res.OK then
      mflushGo t.2.2 rest
    else
      let u := mflushGo p rest
      (u.1, r :: u.2)

/-- Modelled from the spec: LandFlush(dst, src) migrates as much of src into
dst as dst will accept; returns TRUE iff src was emptied. -/
def mflush (p s : MLand) : Bool × MLand × MLand :=
  let t := mflushGo p s.ranges
  (t.2.isEmpty, t.1, { s with ranges := t.2 })

/-- The primary after the model flush. -/
def mflushP (p s : MLand) : MLand := (mflush p s).2.1

/-- The secondary after the model flush. -/
def mflushS (p s : MLand) : MLand := (mflush p s).2.2

/-- A Failover over two model child Lands. -/
def mFO (p s : MLand) : Failover MLand MLand α :=
  { primaryOps := mOps
    secondaryOps := mOps
    flush := mflush
    primary := p
    secondary := s }

/-! ## Supporting lemmas about the model Land -/

theorem mem_addrsList {a : Nat} {L : List Range} :
    a ∈ addrsList L ↔ ∃ r ∈ L, a ∈ r.addrs := by
  induction L with
  | nil => simp [addrsList]
  | cons q rest ih => simp [addrsList, ih]

theorem disjoint_addrsList_right {x : Finset Nat} {L : List Range}
    (h : ∀ q ∈ L, Disjoint x q.addrs) : Disjoint x (addrsList L) := by
  induction L with
  | nil => simp [addrsList]
  | cons q rest ih =>
    simp only [addrsList, Finset.disjoint_union_right]
    exact ⟨h q (by simp), ih fun q hq => h q (by simp [hq])⟩

theorem addrs_subset_addrsList {r : Range} {L : List Range} (h : r ∈ L) :
    r.addrs ⊆ addrsList L := by
  induction L with
  | nil => simp at h
  | cons q rest ih =>
    rcases List.mem_cons.mp h with rfl | h
    · exact Finset.subset_union_left
    · exact (ih h).trans Finset.subset_union_right

theorem sizeList_eq_card {L : List Range}
    (hpair : L.Pairwise (fun a b => Disjoint a.addrs b.addrs)) :
    L.foldr (fun r n => (r.limit - r.base) + n) 0 = (addrsList L).card := by
  induction L with
  | nil => simp [addrsList]
  | cons q rest ih =>
    rw [List.pairwise_cons] at hpair
    have hdisj : Disjoint q.addrs (addrsList rest) :=
      disjoint_addrsList_right fun w hw => hpair.1 w hw
    simp only [List.foldr_cons, addrsList]
    rw [Finset.card_union_of_disjoint hdisj, ih hpair.2, Range.addrs, Nat.card_Ico]

theorem mSize_eq_card {l : MLand} (h : l.wf) : mSize l = l.addrs.card :=
  sizeList_eq_card h.2

/-! ## Claim C3: size additivity -/

/-- Claim C3: at every quiescent moment failoverSize returns exactly
primary.size() + secondary.size(); for model children this is the total
number of bytes in the two range lists, and for a valid (well-formed,
address-disjoint) pair of children it equals the number of free addresses
of the union. -/
theorem failoverSize_additive :
    (∀ (σP σS α : Type) (fo : Failover σP σS α),
        failoverSize fo =
          fo.primaryOps.size fo.primary + fo.secondaryOps.size fo.secondary) ∧
    (∀ p s : MLand, failoverSize (mFO (α := Unit) p s) = mSize p + mSize s) ∧
    (∀ p s : MLand, p.wf → s.wf → Disjoint p.addrs s.addrs →
        failoverSize (mFO (α := Unit) p s) = (p.addrs ∪ s.addrs).card) := by
  refine ⟨fun σP σS α fo => rfl, fun p s => rfl, fun p s hp hs hdisj => ?_⟩
  show mSize p + mSize s = _
  rw [mSize_eq_card hp, mSize_eq_card hs, Finset.card_union_of_disjoint hdisj]

/-- Witness for C3 at a concrete pair of children: P = {[0,10)},
S = {[10,20)} gives F.size() = 20 = number of free addresses of the union. -/
theorem failoverSize_additive_witness :
    failoverSize (mFO (α := Unit) ⟨[⟨0, 10⟩], true⟩ ⟨[⟨10, 20⟩], true⟩) =
      (((⟨[⟨0, 10⟩], true⟩ : MLand).addrs ∪ (⟨[⟨10, 20⟩], true⟩ : MLand).addrs).card) ∧
    failoverSize (mFO (α := Unit) ⟨[⟨0, 10⟩], true⟩ ⟨[⟨10, 20⟩], true⟩) = 20 := by
  have h := failoverSize_additive.2.2 ⟨[⟨0, 10⟩], true⟩ ⟨[⟨10, 20⟩], true⟩
    (by decide) (by decide) (by decide)
  exact ⟨h, by rw [h]; decide⟩

/-! ## Claim C2: insert spill policy -/

/-- Claim C2: failoverInsert first flushes the secondary into the primary
(the flush result is ignored), then tries the primary; when the primary
returns OK or FAIL that result and inserted range are returned; for any
other result code the insert is retried on the secondary and the
secondary's result and inserted range are returned. -/
theorem failoverInsert_spill_policy {σP σS α : Type} (fo : Failover σP σS α)
    (range : Range) (res1 : Res) (rng1 : Range) (p1 : σP)
    (h1 : (failoverFlush fo).primaryOps.insert (failoverFlush fo).primary range
        = (res1, rng1, p1)) :
    (res1 = Res.OK ∨ res1 = Res.FAIL →
        failoverInsert fo range = (res1, rng1, { failoverFlush fo with primary := p1 })) ∧
    (res1 ≠ Res.OK → res1 ≠ Res.FAIL →
        failoverInsert fo range =
          (((failoverFlush fo).secondaryOps.insert (failoverFlush fo).secondary range).1,
           ((failoverFlush fo).secondaryOps.insert (failoverFlush fo).secondary range).2.1,
           { failoverFlush fo with
               primary := p1
               secondary :=
                 ((failoverFlush fo).secondaryOps.insert (failoverFlush fo).secondary range).2.2 })) := by
  constructor
  · intro hok
    rw [failoverInsert, h1]
    have : ¬ ((res1, rng1, p1).1 ≠ Res.OK ∧ (res1, rng1, p1).1 ≠ Res.FAIL) := by
      rcases hok with h | h <;> simp [h]
    rw [if_neg this]
  · intro hOK hFAIL
    rw [failoverInsert, h1]
    rw [if_pos ⟨hOK, hFAIL⟩]

/-- Witness for C2: primary out of metadata (every insert fails with
MEMORY), secondary empty; inserting [100,110) spills into the secondary and
returns OK (spec scenario S1). -/
theorem failoverInsert_spill_policy_witness :
    failoverInsert (mFO (α := Unit) ⟨[], false⟩ ⟨[], true⟩) ⟨100, 110⟩
      = (Res.OK, ⟨100, 110⟩,
         { mFO (α := Unit) ⟨[], false⟩ ⟨[], true⟩ with
             primary := ⟨[], false⟩
             secondary := ⟨[⟨100, 110⟩], true⟩ }) := by
  have h := (failoverInsert_spill_policy (mFO (α := Unit) ⟨[], false⟩ ⟨[], true⟩)
    ⟨100, 110⟩ Res.MEMORY ⟨100, 110⟩ ⟨[], false⟩ (by decide)).2
    (by decide) (by decide)
  exact h

/-! ## Claim C4: delete delegates to the secondary on primary FAIL -/

/-- Claim C4: if after the flush the primary's delete of the range returns
FAIL, failoverDelete returns exactly the result and old range produced by
the secondary's delete; the primary is left in the state the failed delete
gave it, with no recovery processing. -/
theorem failoverDelete_primary_fail_delegates {σP σS α : Type}
    (fo : Failover σP σS α) (rangeReturn0 range : Range) (old1 : Range) (p1 : σP)
    (h1 : (failoverFlush fo).primaryOps.delete (failoverFlush fo).primary range
        = (Res.FAIL, old1, p1)) :
    failoverDelete fo rangeReturn0 range =
      (((failoverFlush fo).secondaryOps.delete (failoverFlush fo).secondary range).1,
       ((failoverFlush fo).secondaryOps.delete (failoverFlush fo).secondary range).2.1,
       { failoverFlush fo with
           primary := p1
           secondary :=
             ((failoverFlush fo).secondaryOps.delete (failoverFlush fo).secondary range).2.2 }) := by
  rw [failoverDelete, h1]
  rw [if_pos rfl]

/-- Witness for C4: the range [50,60) is in neither child (spec scenario
S4), so the failover returns the secondary's FAIL verbatim. -/
theorem failoverDelete_primary_fail_delegates_witness :
    (failoverDelete (mFO (α := Unit) ⟨[⟨0, 10⟩], true⟩ ⟨[⟨100, 110⟩], true⟩)
        ⟨0, 0⟩ ⟨50, 60⟩).1 = Res.FAIL ∧
    (failoverDelete (mFO (α := Unit) ⟨[⟨0, 10⟩], true⟩ ⟨[⟨100, 110⟩], true⟩)
        ⟨0, 0⟩ ⟨50, 60⟩).2.2.primary = ⟨[⟨100, 110⟩, ⟨0, 10⟩], true⟩ := by
  have h := failoverDelete_primary_fail_delegates
    (mFO (α := Unit) ⟨[⟨0, 10⟩], true⟩ ⟨[⟨100, 110⟩], true⟩) ⟨0, 0⟩ ⟨50, 60⟩
    ⟨50, 60⟩ ⟨[⟨100, 110⟩, ⟨0, 10⟩], true⟩ (by decide)
  constructor
  · rw [h]; decide
  · rw [h]

/-! ## Claim C7: find_in_zones fallback -/

/-- Claim C7: failoverFindInZones flushes and queries the primary; whenever
the primary returns a non-OK code or reports found == false, the secondary
is queried, the found flag written back is the secondary's found flag, and
the returned code is the secondary's code — hence OK unless the secondary
itself returned a non-OK code. -/
theorem failoverFindInZones_secondary_fallback {σP σS α : Type}
    (fo : Failover σP σS α) (size : Nat) (zoneSet : ZoneSet) (high : Bool)
    (res1 : Res) (found1 : Bool) (rr1 or1 : Range) (p1 : σP)
    (h1 : (failoverFlush fo).primaryOps.findInZones (failoverFlush fo).primary
        size zoneSet high = (res1, found1, rr1, or1, p1))
    (h2 : res1 ≠ Res.OK ∨ found1 = false) :
    failoverFindInZones fo size zoneSet high =
      (((failoverFlush fo).secondaryOps.findInZones (failoverFlush fo).secondary
          size zoneSet high).1,
       ((failoverFlush fo).secondaryOps.findInZones (failoverFlush fo).secondary
          size zoneSet high).2.1,
       ((failoverFlush fo).secondaryOps.findInZones (failoverFlush fo).secondary
          size zoneSet high).2.2.1,
       ((failoverFlush fo).secondaryOps.findInZones (failoverFlush fo).secondary
          size zoneSet high).2.2.2.1,
       { failoverFlush fo with
           primary := p1
           secondary :=
             ((failoverFlush fo).secondaryOps.findInZones (failoverFlush fo).secondary
                size zoneSet high).2.2.2.2 }) ∧
    (((failoverFlush fo).secondaryOps.findInZones (failoverFlush fo).secondary
        size zoneSet high).1 = Res.OK →
      (failoverFindInZones fo size zoneSet high).1 = Res.OK) := by
  have hmain : failoverFindInZones fo size zoneSet high =
      (((failoverFlush fo).secondaryOps.findInZones (failoverFlush fo).secondary
          size zoneSet high).1,
       ((failoverFlush fo).secondaryOps.findInZones (failoverFlush fo).secondary
          size zoneSet high).2.1,
       ((failoverFlush fo).secondaryOps.findInZones (failoverFlush fo).secondary
          size zoneSet high).2.2.1,
       ((failoverFlush fo).secondaryOps.findInZones (failoverFlush fo).secondary
          size zoneSet high).2.2.2.1,
       { failoverFlush fo with
           primary := p1
           secondary :=
             ((failoverFlush fo).secondaryOps.findInZones (failoverFlush fo).secondary
                size zoneSet high).2.2.2.2 }) := by
    rw [failoverFindInZones, h1]
    rw [if_pos h2]
  exact ⟨hmain, fun hok => by rw [hmain]; exact hok⟩

/-- Witness for C7: the primary cannot allocate (so the flush leaves the
secondary's contents in place) and misses; the secondary holds [0,16) with
zone 0 in the zone set, so its hit is written back and the code is OK. -/
theorem failoverFindInZones_secondary_fallback_witness :
    (failoverFindInZones (mFO (α := Unit) ⟨[], false⟩ ⟨[⟨0, 16⟩], true⟩) 16 1 false).1
        = Res.OK ∧
    (failoverFindInZones (mFO (α := Unit) ⟨[], false⟩ ⟨[⟨0, 16⟩], true⟩) 16 1 false).2.1
        = true := by
  have h := failoverFindInZones_secondary_fallback
    (mFO (α := Unit) ⟨[], false⟩ ⟨[⟨0, 16⟩], true⟩) 16 1 false
    Res.OK false ⟨0, 0⟩ ⟨0, 0⟩ ⟨[], false⟩ (by decide) (Or.inr rfl)
  constructor
  · rw [h.1]; decide
  · rw [h.1]; decide

/-! ## Claim C8: insertSteal consults the primary only -/

/-- Claim C8: failoverInsertSteal flushes the secondary into the primary and
then performs the steal-insert on the primary only (the secondary state is
exactly the post-flush one and the returned result and ranges are the
primary's); under the steal contract — the child's insertSteal returns only
OK or FAIL, since it can steal metadata space from the inserted range — no
other result code escapes. -/
theorem failoverInsertSteal_primary_only {σP σS α : Type}
    (fo : Failover σP σS α) (rangeInOut : Range)
    (hContract : ∀ (p : σP) (r : Range),
        (fo.primaryOps.insertSteal p r).1 = Res.OK ∨
        (fo.primaryOps.insertSteal p r).1 = Res.FAIL) :
    failoverInsertSteal fo rangeInOut =
      (((failoverFlush fo).primaryOps.insertSteal (failoverFlush fo).primary rangeInOut).1,
       ((failoverFlush fo).primaryOps.insertSteal (failoverFlush fo).primary rangeInOut).2.1,
       ((failoverFlush fo).primaryOps.insertSteal (failoverFlush fo).primary rangeInOut).2.2.1,
       { failoverFlush fo with
           primary :=
             ((failoverFlush fo).primaryOps.insertSteal (failoverFlush fo).primary rangeInOut).2.2.2 }) ∧
    (failoverInsertSteal fo rangeInOut).2.2.2.secondary = (failoverFlush fo).secondary ∧
    ((failoverInsertSteal fo rangeInOut).1 = Res.OK ∨
     (failoverInsertSteal fo rangeInOut).1 = Res.FAIL) := by
  refine ⟨rfl, rfl, ?_⟩
  exact hContract (failoverFlush fo).primary rangeInOut

/-- Witness for C8: the model child's steal-insert satisfies the OK-or-FAIL
contract; stealing [20,30) into P = {[0,10)} with S = {[10,20)} flushes S
into P, inserts on the primary only, and returns OK. -/
theorem failoverInsertSteal_primary_only_witness :
    (failoverInsertSteal (mFO (α := Unit) ⟨[⟨0, 10⟩], true⟩ ⟨[⟨10, 20⟩], true⟩)
        ⟨20, 30⟩).1 = Res.OK ∧
    (failoverInsertSteal (mFO (α := Unit) ⟨[⟨0, 10⟩], true⟩ ⟨[⟨10, 20⟩], true⟩)
        ⟨20, 30⟩).2.2.2.secondary = ⟨[], true⟩ := by
  have h := failoverInsertSteal_primary_only
    (mFO (α := Unit) ⟨[⟨0, 10⟩], true⟩ ⟨[⟨10, 20⟩], true⟩) ⟨20, 30⟩
    (fun p r => by
      show (mInsertSteal p r).1 = Res.OK ∨ (mInsertSteal p r).1 = Res.FAIL
      rw [mInsertSteal]
      split
      · exact Or.inr rfl
      · exact Or.inl rfl)
  refine ⟨?_, ?_⟩
  · rw [h.1]; decide
  · rw [h.2.1]; decide

/-! ## Claim C5: find operations query the primary first -/

/-- Counterexample to claim C5's concrete scenario S5: with
P = {[0,10),[100,130)} and S = {[200,215)} (model children), find_largest(15,
NONE) does not return [200,215): after the flush the primary holds all three
ranges, its largest block [100,130) has 30 ≥ 15 bytes, so the primary hits
and [100,130) is the result. -/
theorem failoverFindLargest_scenario_s5_refuted :
    (failoverFindLargest (mFO (α := Unit) ⟨[⟨0, 10⟩, ⟨100, 130⟩], true⟩
        ⟨[⟨200, 215⟩], true⟩) 15 FindDelete.NONE).2.1 ≠ (⟨200, 215⟩ : Range) := by
  decide

/-- Claim C5 (amended): each of find_first, find_last and find_largest
flushes the secondary into the primary, queries the primary and, when the
primary reports a hit, returns that hit without querying the secondary;
only on a primary miss is the secondary queried, so ties resolve to the
primary.  In the S5 configuration P = {[0,10),[100,130)}, S = {[200,215)},
find_largest(15, NONE) therefore returns the primary's largest block
[100,130). -/
theorem failoverFind_primary_first :
    (∀ (σP σS α : Type) (fo : Failover σP σS α) (size : Nat) (fd : FindDelete),
      (((failoverFlush fo).primaryOps.findFirst (failoverFlush fo).primary size fd).1 = true →
        failoverFindFirst fo size fd =
          (true,
           ((failoverFlush fo).primaryOps.findFirst (failoverFlush fo).primary size fd).2.1,
           ((failoverFlush fo).primaryOps.findFirst (failoverFlush fo).primary size fd).2.2.1,
           { failoverFlush fo with
               primary := ((failoverFlush fo).primaryOps.findFirst (failoverFlush fo).primary size fd).2.2.2 })) ∧
      (((failoverFlush fo).primaryOps.findFirst (failoverFlush fo).primary size fd).1 = false →
        failoverFindFirst fo size fd =
          (((failoverFlush fo).secondaryOps.findFirst (failoverFlush fo).secondary size fd).1,
           ((failoverFlush fo).secondaryOps.findFirst (failoverFlush fo).secondary size fd).2.1,
           ((failoverFlush fo).secondaryOps.findFirst (failoverFlush fo).secondary size fd).2.2.1,
           { failoverFlush fo with
               primary := ((failoverFlush fo).primaryOps.findFirst (failoverFlush fo).primary size fd).2.2.2
               secondary := ((failoverFlush fo).secondaryOps.findFirst (failoverFlush fo).secondary size fd).2.2.2 }))) ∧
    (∀ (σP σS α : Type) (fo : Failover σP σS α) (size : Nat) (fd : FindDelete),
      (((failoverFlush fo).primaryOps.findLast (failoverFlush fo).primary size fd).1 = true →
        failoverFindLast fo size fd =
          (true,
           ((failoverFlush fo).primaryOps.findLast (failoverFlush fo).primary size fd).2.1,
           ((failoverFlush fo).primaryOps.findLast (failoverFlush fo).primary size fd).2.2.1,
           { failoverFlush fo with
               primary := ((failoverFlush fo).primaryOps.findLast (failoverFlush fo).primary size fd).2.2.2 })) ∧
      (((failoverFlush fo).primaryOps.findLast (failoverFlush fo).primary size fd).1 = false →
        failoverFindLast fo size fd =
          (((failoverFlush fo).secondaryOps.findLast (failoverFlush fo).secondary size fd).1,
           ((failoverFlush fo).secondaryOps.findLast (failoverFlush fo).secondary size fd).2.1,
           ((failoverFlush fo).secondaryOps.findLast (failoverFlush fo).secondary size fd).2.2.1,
           { failoverFlush fo with
               primary := ((failoverFlush fo).primaryOps.findLast (failoverFlush fo).primary size fd).2.2.2
               secondary := ((failoverFlush fo).secondaryOps.findLast (failoverFlush fo).secondary size fd).2.2.2 }))) ∧
    (∀ (σP σS α : Type) (fo : Failover σP σS α) (size : Nat) (fd : FindDelete),
      (((failoverFlush fo).primaryOps.findLargest (failoverFlush fo).primary size fd).1 = true →
        failoverFindLargest fo size fd =
          (true,
           ((failoverFlush fo).primaryOps.findLargest (failoverFlush fo).primary size fd).2.1,
           ((failoverFlush fo).primaryOps.findLargest (failoverFlush fo).primary size fd).2.2.1,
           { failoverFlush fo with
               primary := ((failoverFlush fo).primaryOps.findLargest (failoverFlush fo).primary size fd).2.2.2 })) ∧
      (((failoverFlush fo).primaryOps.findLargest (failoverFlush fo).primary size fd).1 = false →
        failoverFindLargest fo size fd =
          (((failoverFlush fo).secondaryOps.findLargest (failoverFlush fo).secondary size fd).1,
           ((failoverFlush fo).secondaryOps.findLargest (failoverFlush fo).secondary size fd).2.1,
           ((failoverFlush fo).secondaryOps.findLargest (failoverFlush fo).secondary size fd).2.2.1,
           { failoverFlush fo with
               primary := ((failoverFlush fo).primaryOps.findLargest (failoverFlush fo).primary size fd).2.2.2
               secondary := ((failoverFlush fo).secondaryOps.findLargest (failoverFlush fo).secondary size fd).2.2.2 }))) ∧
    (failoverFindLargest (mFO (α := Unit) ⟨[⟨0, 10⟩, ⟨100, 130⟩], true⟩
        ⟨[⟨200, 215⟩], true⟩) 15 FindDelete.NONE).2.1 = (⟨100, 130⟩ : Range) := by
  refine ⟨fun σP σS α fo size fd => ⟨fun h => ?_, fun h => ?_⟩,
          fun σP σS α fo size fd => ⟨fun h => ?_, fun h => ?_⟩,
          fun σP σS α fo size fd => ⟨fun h => ?_, fun h => ?_⟩, by decide⟩
  · rw [failoverFindFirst, if_pos h]
  · rw [failoverFindFirst, if_neg (by rw [h]; exact Bool.false_ne_true)]
  · rw [failoverFindLast, if_pos h]
  · rw [failoverFindLast, if_neg (by rw [h]; exact Bool.false_ne_true)]
  · rw [failoverFindLargest, if_pos h]
  · rw [failoverFindLargest, if_neg (by rw [h]; exact Bool.false_ne_true)]

/-- Witness for C5: a primary hit — P = {[0,10)}, S = {[100,110)} but the
primary cannot allocate so the flush leaves S alone; find_first(5) hits
[0,10) in the primary and the secondary is untouched. -/
theorem failoverFind_primary_first_witness :
    (failoverFindFirst (mFO (α := Unit) ⟨[⟨0, 10⟩], false⟩ ⟨[⟨100, 110⟩], true⟩)
        5 FindDelete.NONE).2.1 = (⟨0, 10⟩ : Range) ∧
    (failoverFindFirst (mFO (α := Unit) ⟨[⟨0, 10⟩], false⟩ ⟨[⟨100, 110⟩], true⟩)
        5 FindDelete.NONE).2.2.2.secondary = ⟨[⟨100, 110⟩], true⟩ := by
  have h := (failoverFind_primary_first.1 MLand MLand Unit
    (mFO ⟨[⟨0, 10⟩], false⟩ ⟨[⟨100, 110⟩], true⟩) 5 FindDelete.NONE).1 (by decide)
  constructor
  · rw [h]; decide
  · rw [h]; decide

/-! ## Claim C6: iterate visits primary then secondary -/

theorem landIterate_always_true {α : Type} (L : List Range)
    (f : Range → α → α) (c : α) :
    landIterate L (fun r a => (true, f r a)) c
      = (true, L.foldl (fun a r => f r a) c) := by
  induction L generalizing c with
  | nil => rfl
  | cons q rest ih => simp [landIterate, ih]

/-- Claim C6: failoverIterate returns the conjunction of the primary
iteration's continuation flag and the secondary iteration's continuation
flag (with the closure threaded from the primary run into the secondary
run); for a visitor that always continues it visits every range of the
primary and then every range of the secondary, folding the closure over
the primary's ranges followed by the secondary's; in particular with
P = {[0,10)} and S = {[10,20)} a counting visitor is invoked exactly
twice. -/
theorem failoverIterate_visits_both :
    (∀ (σP σS α : Type) (fo : Failover σP σS α) (v : Range → α → Bool × α) (c : α),
      (failoverIterate fo v c).1 =
        ((fo.primaryOps.iterate fo.primary v c).1 &&
         (fo.secondaryOps.iterate fo.secondary v
            (fo.primaryOps.iterate fo.primary v c).2.1).1)) ∧
    (∀ (α : Type) (p s : MLand) (f : Range → α → α) (c : α),
      (failoverIterate (mFO p s) (fun r a => (true, f r a)) c).2.1 =
        (p.ranges ++ s.ranges).foldl (fun a r => f r a) c) ∧
    ((failoverIterate (mFO ⟨[⟨0, 10⟩], true⟩ ⟨[⟨10, 20⟩], true⟩)
        (fun _ n => (true, n + 1)) 0).2.1 = 2) := by
  refine ⟨fun σP σS α fo v c => ?_, fun α p s f c => ?_, by decide⟩
  · rw [failoverIterate]
    rcases h : (fo.primaryOps.iterate fo.primary v c).1 with _ | _
    · simp [h]
    · simp [h]
  · simp [failoverIterate, mFO, mOps, mIterate, landIterate_always_true,
      List.foldl_append]

/-! ## Claim C10: iterate performs no flush and leaves the children alone -/

/-- Claim C10: failoverIterate, unlike the mutating and find operations,
performs no flush of the secondary into the primary: its result does not
depend on the Failover's flush operation at all, and for a visitor that
does not mutate the children (child iterations return their land unchanged)
the range contents of both children are exactly unchanged. -/
theorem failoverIterate_no_flush_frame {σP σS α : Type} (fo : Failover σP σS α)
    (v : Range → α → Bool × α) (c : α)
    (hP : (fo.primaryOps.iterate fo.primary v c).2.2 = fo.primary)
    (hS : (fo.secondaryOps.iterate fo.secondary v
        (fo.primaryOps.iterate fo.primary v c).2.1).2.2 = fo.secondary) :
    (failoverIterate fo v c).2.2.primary = fo.primary ∧
    (failoverIterate fo v c).2.2.secondary = fo.secondary ∧
    ∀ g : σP → σS → Bool × σP × σS,
      (failoverIterate { fo with flush := g } v c).1 = (failoverIterate fo v c).1 ∧
      (failoverIterate { fo with flush := g } v c).2.1 = (failoverIterate fo v c).2.1 ∧
      (failoverIterate { fo with flush := g } v c).2.2.primary
        = (failoverIterate fo v c).2.2.primary ∧
      (failoverIterate { fo with flush := g } v c).2.2.secondary
        = (failoverIterate fo v c).2.2.secondary := by
  rcases h : (fo.primaryOps.iterate fo.primary v c).1 with _ | _
  · refine ⟨?_, ?_, fun g => ⟨?_, ?_, ?_, ?_⟩⟩ <;>
      simp [failoverIterate, h, hP, hS]
  · refine ⟨?_, ?_, fun g => ⟨?_, ?_, ?_, ?_⟩⟩ <;>
      simp [failoverIterate, h, hP, hS]

/-- Witness for C10: model children (whose iterate never mutates the land)
with a counting visitor; both children keep their contents. -/
theorem failoverIterate_no_flush_frame_witness :
    (failoverIterate (mFO ⟨[⟨0, 10⟩], true⟩ ⟨[⟨10, 20⟩], false⟩)
        (fun _ n => (true, n + 1)) 0).2.2.primary = ⟨[⟨0, 10⟩], true⟩ ∧
    (failoverIterate (mFO ⟨[⟨0, 10⟩], true⟩ ⟨[⟨10, 20⟩], false⟩)
        (fun _ n => (true, n + 1)) 0).2.2.secondary = ⟨[⟨10, 20⟩], false⟩ := by
  have h := failoverIterate_no_flush_frame
    (mFO ⟨[⟨0, 10⟩], true⟩ ⟨[⟨10, 20⟩], false⟩)
    (fun _ n => (true, n + 1)) 0 rfl rfl
  exact ⟨h.1, h.2.1⟩

/-! ## Lemmas about overlap, containment, erase and find? -/

theorem disjoint_of_rangesOverlap_eq_false {q r : Range}
    (h : rangesOverlap q r = false) : Disjoint q.addrs r.addrs := by
  simp only [rangesOverlap, Bool.and_eq_false_iff, decide_eq_false_iff_not,
    not_lt] at h
  rw [Finset.disjoint_left]
  intro a ha hb
  simp only [Range.addrs, Finset.mem_Ico] at ha hb
  omega

theorem rangesOverlap_eq_false_of_disjoint {q r : Range}
    (hq : q.base < q.limit) (hr : r.base < r.limit)
    (hd : Disjoint q.addrs r.addrs) : rangesOverlap q r = false := by
  cases hov : rangesOverlap q r
  · rfl
  · exfalso
    simp only [rangesOverlap, Bool.and_eq_true, decide_eq_true_eq] at hov
    have h1 : max q.base r.base ∈ q.addrs := by
      simp only [Range.addrs, Finset.mem_Ico]; omega
    have h2 : max q.base r.base ∈ r.addrs := by
      simp only [Range.addrs, Finset.mem_Ico]; omega
    exact Finset.disjoint_left.mp hd h1 h2

theorem anyOverlap_eq_false {L : List Range} {r : Range}
    (hL : ∀ q ∈ L, q.base < q.limit) (hr : r.base < r.limit)
    (hd : Disjoint (addrsList L) r.addrs) :
    L.any (fun q => rangesOverlap q r) = false := by
  rw [List.any_eq_false]
  intro q hq
  rw [rangesOverlap_eq_false_of_disjoint (hL q hq) hr
    (Finset.disjoint_of_subset_left (addrs_subset_addrsList hq) hd)]
  exact Bool.false_ne_true

theorem addrs_subset_of_containsRange {q r : Range}
    (h : containsRange q r = true) : r.addrs ⊆ q.addrs := by
  simp only [containsRange, Bool.and_eq_true, decide_eq_true_eq] at h
  intro a ha
  simp only [Range.addrs, Finset.mem_Ico] at ha ⊢
  omega

theorem find?_containsRange_self {L : List Range}
    (hL : ∀ q ∈ L, q.base < q.limit)
    (hpair : L.Pairwise (fun a b => Disjoint a.addrs b.addrs))
    {old : Range} (hmem : old ∈ L) :
    L.find? (fun q => containsRange q old) = some old := by
  induction L with
  | nil => simp at hmem
  | cons q rest ih =>
    rw [List.pairwise_cons] at hpair
    rcases List.mem_cons.mp hmem with rfl | hmem'
    · rw [List.find?_cons_of_pos]
      simp [containsRange]
    · rw [List.find?_cons_of_neg, ih (fun w hw => hL w (by simp [hw])) hpair.2 hmem']
      cases hc : containsRange q old
      · exact Bool.false_ne_true
      · exfalso
        have hsub := addrs_subset_of_containsRange hc
        have hb : old.base ∈ old.addrs := by
          simp only [Range.addrs, Finset.mem_Ico]
          exact ⟨Nat.le_refl _, hL old (by simp [hmem'])⟩
        exact Finset.disjoint_left.mp (hpair.1 old hmem') (hsub hb) hb

theorem addrsList_erase {L : List Range}
    (hpair : L.Pairwise (fun a b => Disjoint a.addrs b.addrs))
    {old : Range} (hmem : old ∈ L) :
    addrsList (L.erase old) = addrsList L \ old.addrs := by
  induction L with
  | nil => simp at hmem
  | cons q rest ih =>
    rw [List.pairwise_cons] at hpair
    rcases eq_or_ne q old with rfl | hne
    · rw [List.erase_cons_head]
      have hd : Disjoint q.addrs (addrsList rest) :=
        disjoint_addrsList_right fun w hw => hpair.1 w hw
      ext a
      have hpt : a ∈ q.addrs → a ∉ addrsList rest := fun h =>
        Finset.disjoint_left.mp hd h
      simp only [addrsList, Finset.mem_union, Finset.mem_sdiff]
      tauto
    · have hmem' : old ∈ rest := by
        rcases List.mem_cons.mp hmem with h | h
        · exact absurd h.symm hne
        · exact h
      rw [List.erase_cons_tail (by simp [hne])]
      have hd : Disjoint q.addrs old.addrs := hpair.1 old hmem'
      ext a
      simp only [addrsList, Finset.mem_union, Finset.mem_sdiff,
        ih hpair.2 hmem']
      have hpt : a ∈ q.addrs → a ∉ old.addrs := fun h =>
        Finset.disjoint_left.mp hd h
      tauto

/-! ## Characterizations of the model insert, delete and flush -/

theorem mInsert_ok {l : MLand} {r : Range}
    (hov : l.ranges.any (fun q => rangesOverlap q r) = false)
    (hca : l.canAlloc = true) :
    mInsert l r = (Res.OK, r, ⟨r :: l.ranges, l.canAlloc⟩) := by
  rw [mInsert, if_neg (by rw [hov]; exact Bool.false_ne_true), if_pos hca]

theorem mInsert_noalloc {l : MLand} {r : Range} (hca : l.canAlloc = false) :
    (mInsert l r).1 ≠ Res.OK ∧ (mInsert l r).2.2 = l := by
  rw [mInsert]
  split
  · exact ⟨by simp, rfl⟩
  · rw [if_neg (by rw [hca]; exact Bool.false_ne_true)]
    exact ⟨by simp, rfl⟩

theorem mInsert_cases (l : MLand) (r : Range) :
    ((mInsert l r).1 = Res.OK ∧ (mInsert l r).2.2 = ⟨r :: l.ranges, l.canAlloc⟩ ∧
      ∀ q ∈ l.ranges, Disjoint q.addrs r.addrs) ∨
    ((mInsert l r).1 ≠ Res.OK ∧ (mInsert l r).2.2 = l) := by
  rw [mInsert]
  split
  · exact Or.inr ⟨by simp, rfl⟩
  · next hov =>
    split
    · refine Or.inl ⟨rfl, rfl, fun q hq => ?_⟩
      rw [List.any_eq_true] at hov
      push_neg at hov
      exact disjoint_of_rangesOverlap_eq_false
        (Bool.not_eq_true _ ▸ hov q hq)
    · exact Or.inr ⟨by simp, rfl⟩

theorem mDelete_inv_not_ok_fail {l : MLand} {r : Range} {res : Res}
    {old : Range} {l2 : MLand}
    (h : mDelete l r = (res, old, l2)) (h1 : res ≠ Res.OK) (h2 : res ≠ Res.FAIL) :
    l.ranges.find? (fun q => containsRange q r) = some old ∧
    containsRange old r = true ∧ old ∈ l.ranges ∧
    res = Res.MEMORY ∧ l2 = l ∧ l.canAlloc = false ∧
    ¬(old.base = r.base ∧ old.limit = r.limit) := by
  rw [mDelete] at h
  split at h
  · simp only [Prod.mk.injEq] at h
    exact absurd h.1.symm h2
  · next o hf =>
    split at h
    · simp only [Prod.mk.injEq] at h
      exact absurd h.1.symm h1
    · next hne =>
      split at h
      · simp only [Prod.mk.injEq] at h
        exact absurd h.1.symm h1
      · next hca =>
        simp only [Prod.mk.injEq] at h
        obtain ⟨hres, holdeq, hl2⟩ := h
        subst holdeq
        refine ⟨hf, by simpa using List.find?_some hf,
          List.mem_of_find?_eq_some hf,
          hres.symm, hl2.symm, by simpa using hca, hne⟩

theorem mDelete_whole {l : MLand} {old : Range}
    (hL : ∀ q ∈ l.ranges, q.base < q.limit)
    (hpair : l.ranges.Pairwise (fun a b => Disjoint a.addrs b.addrs))
    (hmem : old ∈ l.ranges) :
    mDelete l old = (Res.OK, old, ⟨l.ranges.erase old, l.canAlloc⟩) := by
  rw [mDelete, find?_containsRange_self hL hpair hmem]
  simp

theorem mflushGo_spec (p : MLand) (pending : List Range)
    (hp1 : ∀ q ∈ p.ranges, q.base < q.limit)
    (hp2 : p.ranges.Pairwise (fun a b => Disjoint a.addrs b.addrs))
    (hq1 : ∀ q ∈ pending, q.base < q.limit)
    (hq2 : pending.Pairwise (fun a b => Disjoint a.addrs b.addrs))
    (hd : Disjoint (addrsList p.ranges) (addrsList pending)) :
    (∀ q ∈ (mflushGo p pending).1.ranges, q.base < q.limit) ∧
    (mflushGo p pending).1.ranges.Pairwise (fun a b => Disjoint a.addrs b.addrs) ∧
    (mflushGo p pending).2.Sublist pending ∧
    Disjoint (addrsList (mflushGo p pending).1.ranges)
      (addrsList (mflushGo p pending).2) ∧
    (addrsList (mflushGo p pending).1.ranges ∪ addrsList (mflushGo p pending).2
      = addrsList p.ranges ∪ addrsList pending) ∧
    (mflushGo p pending).1.canAlloc = p.canAlloc := by
  induction pending generalizing p with
  | nil =>
    exact ⟨hp1, hp2, List.Sublist.refl _, by simp [mflushGo, addrsList],
      by simp [mflushGo, addrsList], rfl⟩
  | cons r rest ih =>
    rw [List.pairwise_cons] at hq2
    have hrne : r.base < r.limit := hq1 r (by simp)
    have hrrest : Disjoint r.addrs (addrsList rest) :=
      disjoint_addrsList_right fun w hw => hq2.1 w hw
    rw [show addrsList (r :: rest) = r.addrs ∪ addrsList rest from rfl,
      Finset.disjoint_union_right] at hd
    rcases mInsert_cases p r with ⟨hok, hstate, hdisjqr⟩ | ⟨hnok, hstate⟩
    · have hred : mflushGo p (r :: rest)
          = mflushGo (⟨r :: p.ranges, p.canAlloc⟩ : MLand) rest := by
        show (if (mInsert p r).1 = Res.OK
            then mflushGo (mInsert p r).2.2 rest
            else ((mflushGo p rest).1, r :: (mflushGo p rest).2)) = _
        rw [if_pos hok, hstate]
      have hp1' : ∀ q ∈ (⟨r :: p.ranges, p.canAlloc⟩ : MLand).ranges,
          q.base < q.limit := by
        intro q hq
        rcases List.mem_cons.mp hq with rfl | hq'
        · exact hrne
        · exact hp1 q hq'
      have hp2' : (⟨r :: p.ranges, p.canAlloc⟩ : MLand).ranges.Pairwise
          (fun a b => Disjoint a.addrs b.addrs) :=
        List.pairwise_cons.mpr ⟨fun w hw => (hdisjqr w hw).symm, hp2⟩
      have hd' : Disjoint (addrsList (⟨r :: p.ranges, p.canAlloc⟩ : MLand).ranges)
          (addrsList rest) := by
        show Disjoint (r.addrs ∪ addrsList p.ranges) (addrsList rest)
        rw [Finset.disjoint_union_left]
        exact ⟨hrrest, hd.2⟩
      obtain ⟨c1, c2, c3, c4, c5, c6⟩ := ih ⟨r :: p.ranges, p.canAlloc⟩ hp1' hp2'
        (fun w hw => hq1 w (by simp [hw])) hq2.2 hd'
      rw [hred]
      refine ⟨c1, c2, c3.cons r, c4, ?_, c6⟩
      rw [c5]
      ext a
      have : addrsList (r :: p.ranges) = r.addrs ∪ addrsList p.ranges := rfl
      simp only [this, show addrsList (r :: rest) = r.addrs ∪ addrsList rest from rfl,
        Finset.mem_union]
      tauto
    · have hred : mflushGo p (r :: rest)
          = ((mflushGo p rest).1, r :: (mflushGo p rest).2) := by
        show (if (mInsert p r).1 = Res.OK
            then mflushGo (mInsert p r).2.2 rest
            else ((mflushGo p rest).1, r :: (mflushGo p rest).2)) = _
        rw [if_neg hnok]
      obtain ⟨c1, c2, c3, c4, c5, c6⟩ := ih p hp1 hp2
        (fun w hw => hq1 w (by simp [hw])) hq2.2 hd.2
      rw [hred]
      have hsubP : addrsList (mflushGo p rest).1.ranges
          ⊆ addrsList p.ranges ∪ addrsList rest := by
        rw [← c5]; exact Finset.subset_union_left
      refine ⟨c1, c2, c3.cons₂ r, ?_, ?_, c6⟩
      · show Disjoint (addrsList (mflushGo p rest).1.ranges)
          (r.addrs ∪ addrsList (mflushGo p rest).2)
        rw [Finset.disjoint_union_right]
        refine ⟨Finset.disjoint_of_subset_left hsubP ?_, c4⟩
        rw [Finset.disjoint_union_left]
        exact ⟨hd.1, hrrest.symm⟩
      · show addrsList (mflushGo p rest).1.ranges
            ∪ (r.addrs ∪ addrsList (mflushGo p rest).2)
          = addrsList p.ranges ∪ (r.addrs ∪ addrsList rest)
        ext a
        have hiff := Finset.ext_iff.mp c5 a
        simp only [Finset.mem_union] at hiff ⊢
        tauto

theorem mflush_spec (P S : MLand) (hwfP : P.wf) (hwfS : S.wf)
    (hdisj : Disjoint P.addrs S.addrs) :
    (mflushP P S).wf ∧ (mflushS P S).wf ∧
    Disjoint (mflushP P S).addrs (mflushS P S).addrs ∧
    ((mflushP P S).addrs ∪ (mflushS P S).addrs = P.addrs ∪ S.addrs) ∧
    (mflushP P S).canAlloc = P.canAlloc ∧
    (mflushS P S).canAlloc = S.canAlloc := by
  obtain ⟨c1, c2, c3, c4, c5, c6⟩ :=
    mflushGo_spec P S.ranges hwfP.1 hwfP.2 hwfS.1 hwfS.2 hdisj
  have hPr : (mflushP P S).ranges = (mflushGo P S.ranges).1.ranges := rfl
  have hSr : (mflushS P S).ranges = (mflushGo P S.ranges).2 := rfl
  refine ⟨⟨by rw [hPr]; exact c1, by rw [hPr]; exact c2⟩,
    ⟨?_, ?_⟩, ?_, ?_, c6, rfl⟩
  · rw [hSr]; exact fun q hq => hwfS.1 q (c3.mem hq)
  · rw [hSr]; exact hwfS.2.sublist c3
  · exact c4
  · exact c5

/-! ## Evaluation lemmas for the delete recovery path -/

theorem failoverDelete_recovery_eval {σP σS α : Type} (fo : Failover σP σS α)
    (r0 r old : Range) (p1 p3 : σP)
    (ht : (failoverFlush fo).primaryOps.delete (failoverFlush fo).primary r
        = (Res.MEMORY, old, p1))
    (hd : (failoverFlush fo).primaryOps.delete p1 old = (Res.OK, old, p3)) :
    failoverDelete fo r0 r =
      (let a := if ¬ (⟨old.base, r.base⟩ : Range).isEmpty
          then reinsertFragment { failoverFlush fo with primary := p3 } ⟨old.base, r.base⟩
          else (Res.OK, { failoverFlush fo with primary := p3 })
       let b := if ¬ (⟨r.limit, old.limit⟩ : Range).isEmpty
          then reinsertFragment a.2 ⟨r.limit, old.limit⟩ else a
       if b.1 = Res.OK then (Res.OK, old, b.2) else (b.1, r0, b.2)) := by
  simp only [failoverDelete, ht]
  simp only [hd]
  simp

theorem reinsertFragment_eval_spill {σP σS α : Type} (fo : Failover σP σS α)
    (frag : Range)
    (hne : (fo.primaryOps.insert fo.primary frag).1 ≠ Res.OK) :
    reinsertFragment fo frag =
      ((fo.secondaryOps.insert fo.secondary frag).1,
       { fo with primary := (fo.primaryOps.insert fo.primary frag).2.2
                 secondary := (fo.secondaryOps.insert fo.secondary frag).2.2 }) := by
  simp only [reinsertFragment]
  rw [if_pos hne]

/-! ## Set algebra for the recovery path -/

theorem addrsList_append (A B : List Range) :
    addrsList (A ++ B) = addrsList A ∪ addrsList B := by
  induction A with
  | nil => simp [addrsList]
  | cons q rest ih => simp [addrsList, ih, Finset.union_assoc]

theorem addrsList_emptyCase (r : Range) :
    addrsList (if r.isEmpty then [] else [r]) = r.addrs := by
  cases h : r.isEmpty
  · simp [addrsList]
  · have hb : r.base = r.limit := by
      simpa [Range.isEmpty] using h
    simp [addrsList, Range.addrs, hb]

theorem left_right_addrs_union {old r : Range} (hob : old.base ≤ r.base)
    (hr : r.base ≤ r.limit) (hol : r.limit ≤ old.limit) :
    (⟨old.base, r.base⟩ : Range).addrs ∪ (⟨r.limit, old.limit⟩ : Range).addrs
      = old.addrs \ r.addrs := by
  ext a
  simp only [Range.addrs, Finset.mem_union, Finset.mem_sdiff, Finset.mem_Ico]
  omega

theorem sdiff_union_of_subset {A O R : Finset Nat} (hOA : O ⊆ A) (hRO : R ⊆ O) :
    (A \ O) ∪ (O \ R) = A \ R := by
  ext a
  simp only [Finset.mem_union, Finset.mem_sdiff]
  have h1 : a ∈ O → a ∈ A := fun h => hOA h
  have h2 : a ∈ R → a ∈ O := fun h => hRO h
  tauto

theorem union_sdiff_of_disjoint {A R B : Finset Nat} (hBR : Disjoint B R) :
    (A \ R) ∪ B = (A ∪ B) \ R := by
  ext a
  simp only [Finset.mem_union, Finset.mem_sdiff]
  have h1 : a ∈ B → a ∉ R := fun h => Finset.disjoint_left.mp hBR h
  tauto

theorem reinsert_mFO_spill (p s : MLand) (frag : Range)
    (hpca : p.canAlloc = false) (hsca : s.canAlloc = true)
    (hel : ∀ q ∈ s.ranges, q.base < q.limit) (hfne : frag.base < frag.limit)
    (hd : Disjoint (addrsList s.ranges) frag.addrs) :
    reinsertFragment (mFO (α := Unit) p s) frag
      = (Res.OK, mFO p ⟨frag :: s.ranges, s.canAlloc⟩) := by
  rw [reinsertFragment_eval_spill (mFO (α := Unit) p s) frag ((mInsert_noalloc hpca).1)]
  rw [show ((mFO (α := Unit) p s).primaryOps.insert
      (mFO (α := Unit) p s).primary frag).2.2 = p from (mInsert_noalloc hpca).2]
  rw [show (mFO (α := Unit) p s).secondaryOps.insert
      (mFO (α := Unit) p s).secondary frag
      = (Res.OK, frag, (⟨frag :: s.ranges, s.canAlloc⟩ : MLand))
    from mInsert_ok (anyOverlap_eq_false hel hfne hd) hsca]
  rfl



theorem mRecovery_exec (P S : MLand) (r r0 : Range) (res : Res) (old : Range)
    (P2 : MLand)
    (hwfP : P.wf) (hwfS : S.wf) (hdisj : Disjoint P.addrs S.addrs)
    (hSca : S.canAlloc = true) (hr : r.base ≤ r.limit)
    (hdel : mDelete (mflushP P S) r = (res, old, P2))
    (hresO : res ≠ Res.OK) (hresF : res ≠ Res.FAIL) :
    res = Res.MEMORY ∧
    containsRange old r = true ∧
    old ∈ (mflushP P S).ranges ∧
    old.base < old.limit ∧
    (mflushP P S).canAlloc = false ∧
    (mflushS P S).canAlloc = true ∧
    failoverDelete (mFO (α := Unit) P S) r0 r
      = (Res.OK, old,
         mFO (⟨(mflushP P S).ranges.erase old, (mflushP P S).canAlloc⟩ : MLand)
           (⟨(if (⟨r.limit, old.limit⟩ : Range).isEmpty then [] else [(⟨r.limit, old.limit⟩ : Range)]) ++
              (if (⟨old.base, r.base⟩ : Range).isEmpty then [] else [(⟨old.base, r.base⟩ : Range)]) ++ (mflushS P S).ranges,
             (mflushS P S).canAlloc⟩ : MLand)) ∧
    ((mflushP P S).addrs ∪ (mflushS P S).addrs = P.addrs ∪ S.addrs) ∧
    Disjoint (mflushP P S).addrs (mflushS P S).addrs ∧
    (mflushP P S).wf ∧ (mflushS P S).wf := by
  obtain ⟨hf, hcont, hmem, hresM, hP2, hcaP1, hneq⟩ :=
    mDelete_inv_not_ok_fail hdel hresO hresF
  obtain ⟨wfP1, wfS1, disj1, union1, caP, caS⟩ :=
    mflush_spec P S hwfP hwfS hdisj
  have hSca1 : (mflushS P S).canAlloc = true := by rw [caS]; exact hSca
  have holdne : old.base < old.limit := wfP1.1 old hmem
  have hcd : old.base ≤ r.base ∧ r.limit ≤ old.limit := by
    simpa [containsRange] using hcont
  have ht : (failoverFlush (mFO (α := Unit) P S)).primaryOps.delete
      (failoverFlush (mFO (α := Unit) P S)).primary r
      = (Res.MEMORY, old, mflushP P S) := by
    rw [hresM, hP2] at hdel
    exact hdel
  have hdw : (failoverFlush (mFO (α := Unit) P S)).primaryOps.delete
      (mflushP P S) old = (Res.OK, old, (⟨(mflushP P S).ranges.erase old, (mflushP P S).canAlloc⟩ : MLand)) :=
    mDelete_whole wfP1.1 wfP1.2 hmem
  have heval : failoverDelete (mFO (α := Unit) P S) r0 r =
      (let a := if ¬ (⟨old.base, r.base⟩ : Range).isEmpty
          then reinsertFragment (mFO (α := Unit) (⟨(mflushP P S).ranges.erase old, (mflushP P S).canAlloc⟩ : MLand) (mflushS P S)) (⟨old.base, r.base⟩ : Range)
          else (Res.OK, mFO (α := Unit) (⟨(mflushP P S).ranges.erase old, (mflushP P S).canAlloc⟩ : MLand) (mflushS P S))
       let b := if ¬ (⟨r.limit, old.limit⟩ : Range).isEmpty
          then reinsertFragment a.2 (⟨r.limit, old.limit⟩ : Range) else a
       if b.1 = Res.OK then (Res.OK, old, b.2) else (b.1, r0, b.2)) :=
    failoverDelete_recovery_eval (mFO (α := Unit) P S) r0 r old (mflushP P S)
      (⟨(mflushP P S).ranges.erase old, (mflushP P S).canAlloc⟩ : MLand) ht hdw
  have hca3 : ((⟨(mflushP P S).ranges.erase old, (mflushP P S).canAlloc⟩ : MLand)).canAlloc = false := hcaP1
  have hleftsub : (⟨old.base, r.base⟩ : Range).addrs ⊆ old.addrs := by
    intro a ha
    simp only [Range.addrs, Finset.mem_Ico] at ha ⊢
    omega
  have hrightsub : (⟨r.limit, old.limit⟩ : Range).addrs ⊆ old.addrs := by
    intro a ha
    simp only [Range.addrs, Finset.mem_Ico] at ha ⊢
    omega
  have holdP1 : old.addrs ⊆ (mflushP P S).addrs := addrs_subset_addrsList hmem
  have hdS1left : Disjoint (addrsList (mflushS P S).ranges) (⟨old.base, r.base⟩ : Range).addrs :=
    Finset.disjoint_of_subset_right (hleftsub.trans holdP1) disj1.symm
  have hdS1right : Disjoint (addrsList (mflushS P S).ranges) (⟨r.limit, old.limit⟩ : Range).addrs :=
    Finset.disjoint_of_subset_right (hrightsub.trans holdP1) disj1.symm
  have hdLR : Disjoint (⟨old.base, r.base⟩ : Range).addrs (⟨r.limit, old.limit⟩ : Range).addrs := by
    rw [Finset.disjoint_left]
    intro a ha hb
    simp only [Range.addrs, Finset.mem_Ico] at ha hb
    omega
  refine ⟨hresM, hcont, hmem, holdne, hcaP1, hSca1, ?_, union1, disj1, wfP1, wfS1⟩
  rcases hLE : (⟨old.base, r.base⟩ : Range).isEmpty with _ | _
  · have hlne : old.base < r.base := by
      simp only [Range.isEmpty, beq_eq_false_iff_ne, ne_eq] at hLE
      omega
    have e1 : reinsertFragment (mFO (α := Unit) (⟨(mflushP P S).ranges.erase old, (mflushP P S).canAlloc⟩ : MLand) (mflushS P S)) (⟨old.base, r.base⟩ : Range)
        = (Res.OK, mFO (α := Unit) (⟨(mflushP P S).ranges.erase old, (mflushP P S).canAlloc⟩ : MLand) (⟨(⟨old.base, r.base⟩ : Range) :: (mflushS P S).ranges, (mflushS P S).canAlloc⟩ : MLand)) :=
      reinsert_mFO_spill (⟨(mflushP P S).ranges.erase old, (mflushP P S).canAlloc⟩ : MLand) (mflushS P S) (⟨old.base, r.base⟩ : Range) hca3 hSca1 wfS1.1 hlne hdS1left
    rcases hRE : (⟨r.limit, old.limit⟩ : Range).isEmpty with _ | _
    · have hrne : r.limit < old.limit := by
        simp only [Range.isEmpty, beq_eq_false_iff_ne, ne_eq] at hRE
        omega
      have e2 : reinsertFragment (mFO (α := Unit) (⟨(mflushP P S).ranges.erase old, (mflushP P S).canAlloc⟩ : MLand) (⟨(⟨old.base, r.base⟩ : Range) :: (mflushS P S).ranges, (mflushS P S).canAlloc⟩ : MLand)) (⟨r.limit, old.limit⟩ : Range)
          = (Res.OK, mFO (α := Unit) (⟨(mflushP P S).ranges.erase old, (mflushP P S).canAlloc⟩ : MLand) (⟨(⟨r.limit, old.limit⟩ : Range) :: (⟨old.base, r.base⟩ : Range) :: (mflushS P S).ranges, (mflushS P S).canAlloc⟩ : MLand)) := by
        refine reinsert_mFO_spill (⟨(mflushP P S).ranges.erase old, (mflushP P S).canAlloc⟩ : MLand) (⟨(⟨old.base, r.base⟩ : Range) :: (mflushS P S).ranges, (mflushS P S).canAlloc⟩ : MLand) (⟨r.limit, old.limit⟩ : Range) hca3 hSca1 ?_ hrne ?_
        · intro q hq
          rcases List.mem_cons.mp hq with rfl | hq'
          · exact hlne
          · exact wfS1.1 q hq'
        · rw [show addrsList ((⟨old.base, r.base⟩ : Range) :: (mflushS P S).ranges)
              = (⟨old.base, r.base⟩ : Range).addrs ∪ addrsList (mflushS P S).ranges from rfl]
          rw [Finset.disjoint_union_left]
          exact ⟨hdLR, hdS1right⟩
      rw [heval]
      simp only [hLE, hRE, Bool.false_eq_true, not_false_eq_true, if_true, e1, e2]
      simp
    · rw [heval]
      simp only [hLE, hRE, Bool.false_eq_true, not_false_eq_true, if_true,
        not_true_eq_false, if_false, e1]
      simp
  · rcases hRE : (⟨r.limit, old.limit⟩ : Range).isEmpty with _ | _
    · have hrne : r.limit < old.limit := by
        simp only [Range.isEmpty, beq_eq_false_iff_ne, ne_eq] at hRE
        omega
      have e2 : reinsertFragment (mFO (α := Unit) (⟨(mflushP P S).ranges.erase old, (mflushP P S).canAlloc⟩ : MLand) (mflushS P S)) (⟨r.limit, old.limit⟩ : Range)
          = (Res.OK, mFO (α := Unit) (⟨(mflushP P S).ranges.erase old, (mflushP P S).canAlloc⟩ : MLand) (⟨(⟨r.limit, old.limit⟩ : Range) :: (mflushS P S).ranges, (mflushS P S).canAlloc⟩ : MLand)) :=
        reinsert_mFO_spill (⟨(mflushP P S).ranges.erase old, (mflushP P S).canAlloc⟩ : MLand) (mflushS P S) (⟨r.limit, old.limit⟩ : Range) hca3 hSca1 wfS1.1 hrne hdS1right
      rw [heval]
      simp only [hLE, hRE, Bool.false_eq_true, not_false_eq_true, if_true,
        not_true_eq_false, if_false, e2]
      simp
    · rw [heval]
      simp only [hLE, hRE, not_true_eq_false, if_false]
      simp

/-! ## Claim C1: the recovery path preserves the free set -/

/-- Claim C1: when failoverDelete takes the recovery path (the post-flush
primary finds the containing old range for r but reports an
allocation-failure code, i.e. neither OK nor FAIL), the operation returns
OK together with the pre-existing old range, that old range contains r,
and the set of free addresses of the failover (the union of the two
children) afterwards is exactly the previous free set minus the addresses
of r; the fragments [old.base, r.base) and [r.limit, old.limit) appear in
the secondary exactly when non-empty (the primary, out of metadata, having
refused them), and the primary is left holding exactly its ranges minus
the old range. -/
theorem failoverDelete_recovery_preserves_free_set
    (P S : MLand) (r r0 : Range) (res : Res) (old : Range) (P2 : MLand)
    (hwfP : P.wf) (hwfS : S.wf) (hdisj : Disjoint P.addrs S.addrs)
    (hSca : S.canAlloc = true) (hr : r.base ≤ r.limit)
    (hdel : mDelete (mflushP P S) r = (res, old, P2))
    (hresO : res ≠ Res.OK) (hresF : res ≠ Res.FAIL) :
    ResIsAllocFailure res = true ∧
    (failoverDelete (mFO (α := Unit) P S) r0 r).1 = Res.OK ∧
    (failoverDelete (mFO (α := Unit) P S) r0 r).2.1 = old ∧
    (old.base ≤ r.base ∧ r.limit ≤ old.limit) ∧
    ((failoverDelete (mFO (α := Unit) P S) r0 r).2.2.primary.addrs ∪
       (failoverDelete (mFO (α := Unit) P S) r0 r).2.2.secondary.addrs
      = (P.addrs ∪ S.addrs) \ r.addrs) ∧
    ((failoverDelete (mFO (α := Unit) P S) r0 r).2.2.primary.ranges
      = (mflushP P S).ranges.erase old) ∧
    ((failoverDelete (mFO (α := Unit) P S) r0 r).2.2.secondary.ranges
      = (if (⟨r.limit, old.limit⟩ : Range).isEmpty then [] else [(⟨r.limit, old.limit⟩ : Range)]) ++
        (if (⟨old.base, r.base⟩ : Range).isEmpty then [] else [(⟨old.base, r.base⟩ : Range)]) ++ (mflushS P S).ranges) := by
  obtain ⟨hresM, hcont, hmem, holdne, hcaP1, hSca1, hexec, union1, disj1, wfP1, wfS1⟩ :=
    mRecovery_exec P S r r0 res old P2 hwfP hwfS hdisj hSca hr hdel hresO hresF
  have hcd : old.base ≤ r.base ∧ r.limit ≤ old.limit := by
    simpa [containsRange] using hcont
  refine ⟨by rw [hresM]; rfl, by rw [hexec], by rw [hexec], hcd, ?_,
    by rw [hexec]; rfl, by rw [hexec]; rfl⟩
  rw [hexec]
  show addrsList ((mflushP P S).ranges.erase old) ∪
      addrsList (((if (⟨r.limit, old.limit⟩ : Range).isEmpty then [] else [(⟨r.limit, old.limit⟩ : Range)]) ++
        (if (⟨old.base, r.base⟩ : Range).isEmpty then [] else [(⟨old.base, r.base⟩ : Range)])) ++ (mflushS P S).ranges)
    = (P.addrs ∪ S.addrs) \ r.addrs
  have union1' : addrsList (mflushP P S).ranges ∪ addrsList (mflushS P S).ranges
      = P.addrs ∪ S.addrs := union1
  have disj1' : Disjoint (addrsList (mflushP P S).ranges)
      (addrsList (mflushS P S).ranges) := disj1
  have holdsubP1 : old.addrs ⊆ addrsList (mflushP P S).ranges :=
    addrs_subset_addrsList hmem
  have hRsub : r.addrs ⊆ old.addrs := addrs_subset_of_containsRange hcont
  have hS1r : Disjoint (addrsList (mflushS P S).ranges) r.addrs :=
    Finset.disjoint_of_subset_right (hRsub.trans holdsubP1) disj1'.symm
  rw [addrsList_erase wfP1.2 hmem, addrsList_append, addrsList_append,
    addrsList_emptyCase, addrsList_emptyCase]
  have hlr := left_right_addrs_union hcd.1 hr hcd.2
  have step1 : ((⟨r.limit, old.limit⟩ : Range).addrs ∪ (⟨old.base, r.base⟩ : Range).addrs) ∪ addrsList (mflushS P S).ranges
      = (old.addrs \ r.addrs) ∪ addrsList (mflushS P S).ranges := by
    rw [← hlr]
    ext a
    simp only [Finset.mem_union]
    tauto
  rw [step1, ← Finset.union_assoc, sdiff_union_of_subset holdsubP1 hRsub,
    union_sdiff_of_disjoint hS1r, union1']

/-- Witness for C1: the scaled-down S3 scenario, P = {[0,10)} with
exhausted metadata, S empty; deleting [4,6) returns OK with old = [0,10)
and leaves the free set {[0,4), [6,10)}, both fragments in the secondary. -/
theorem failoverDelete_recovery_preserves_free_set_witness :
    (failoverDelete (mFO (α := Unit) ⟨[⟨0, 10⟩], false⟩ ⟨[], true⟩)
        ⟨0, 0⟩ ⟨4, 6⟩).1 = Res.OK ∧
    (failoverDelete (mFO (α := Unit) ⟨[⟨0, 10⟩], false⟩ ⟨[], true⟩)
        ⟨0, 0⟩ ⟨4, 6⟩).2.1 = (⟨0, 10⟩ : Range) ∧
    ((failoverDelete (mFO (α := Unit) ⟨[⟨0, 10⟩], false⟩ ⟨[], true⟩)
        ⟨0, 0⟩ ⟨4, 6⟩).2.2.primary.addrs ∪
      (failoverDelete (mFO (α := Unit) ⟨[⟨0, 10⟩], false⟩ ⟨[], true⟩)
        ⟨0, 0⟩ ⟨4, 6⟩).2.2.secondary.addrs
      = Finset.Ico 0 4 ∪ Finset.Ico 6 10) := by
  have h := failoverDelete_recovery_preserves_free_set
    ⟨[⟨0, 10⟩], false⟩ ⟨[], true⟩ ⟨4, 6⟩ ⟨0, 0⟩ Res.MEMORY ⟨0, 10⟩
    ⟨[⟨0, 10⟩], false⟩ (by decide) (by decide) (by decide) (by decide)
    (by decide) (by decide) (by decide) (by decide)
  refine ⟨h.2.1, h.2.2.1, ?_⟩
  rw [h.2.2.2.2.1]
  decide

/-! ## Claim C9: recovery re-insertion into the primary cannot FAIL -/

/-- Claim C9: on the recovery path, once the whole containing old range has
been deleted from the primary, the addresses of each non-empty fragment of
it no longer overlap any range remaining in the primary, so re-inserting
such a fragment into the primary cannot return FAIL (a FAIL would be a
semantic refusal caused by overlap): this is the asserted
AVER(res != ResFAIL) of the source.  The primary state at both fragment
inserts is the post-deletion state, and it is also the final primary
state, because the metadata-exhausted primary refuses both fragments. -/
theorem failoverDelete_recovery_reinsert_not_fail
    (P S : MLand) (r r0 : Range) (res : Res) (old : Range) (P2 : MLand)
    (hwfP : P.wf) (hwfS : S.wf) (hdisj : Disjoint P.addrs S.addrs)
    (hSca : S.canAlloc = true) (hr : r.base ≤ r.limit)
    (hdel : mDelete (mflushP P S) r = (res, old, P2))
    (hresO : res ≠ Res.OK) (hresF : res ≠ Res.FAIL) :
    ((⟨old.base, r.base⟩ : Range).isEmpty = false →
      Disjoint (⟨old.base, r.base⟩ : Range).addrs (addrsList ((mflushP P S).ranges.erase old)) ∧
      (mInsert (⟨(mflushP P S).ranges.erase old, (mflushP P S).canAlloc⟩ : MLand) (⟨old.base, r.base⟩ : Range)).1 ≠ Res.FAIL) ∧
    ((⟨r.limit, old.limit⟩ : Range).isEmpty = false →
      Disjoint (⟨r.limit, old.limit⟩ : Range).addrs (addrsList ((mflushP P S).ranges.erase old)) ∧
      (mInsert (⟨(mflushP P S).ranges.erase old, (mflushP P S).canAlloc⟩ : MLand) (⟨r.limit, old.limit⟩ : Range)).1 ≠ Res.FAIL) ∧
    (failoverDelete (mFO (α := Unit) P S) r0 r).2.2.primary = (⟨(mflushP P S).ranges.erase old, (mflushP P S).canAlloc⟩ : MLand) := by
  obtain ⟨hresM, hcont, hmem, holdne, hcaP1, hSca1, hexec, union1, disj1, wfP1, wfS1⟩ :=
    mRecovery_exec P S r r0 res old P2 hwfP hwfS hdisj hSca hr hdel hresO hresF
  have hcd : old.base ≤ r.base ∧ r.limit ≤ old.limit := by
    simpa [containsRange] using hcont
  have hP3A : addrsList ((mflushP P S).ranges.erase old)
      = addrsList (mflushP P S).ranges \ old.addrs :=
    addrsList_erase wfP1.2 hmem
  have hP3el : ∀ q ∈ (mflushP P S).ranges.erase old, q.base < q.limit :=
    fun q hq => wfP1.1 q (List.mem_of_mem_erase hq)
  have hfrag : ∀ frag : Range, frag.addrs ⊆ old.addrs → frag.base < frag.limit →
      Disjoint frag.addrs (addrsList ((mflushP P S).ranges.erase old)) ∧
      (mInsert (⟨(mflushP P S).ranges.erase old, (mflushP P S).canAlloc⟩ : MLand) frag).1 ≠ Res.FAIL := by
    intro frag hsub hfne
    have hd : Disjoint frag.addrs (addrsList ((mflushP P S).ranges.erase old)) := by
      rw [hP3A]
      exact Finset.disjoint_of_subset_left hsub Finset.sdiff_disjoint.symm
    refine ⟨hd, ?_⟩
    rw [mInsert]
    rw [if_neg (by
      rw [anyOverlap_eq_false hP3el hfne hd.symm]
      exact Bool.false_ne_true)]
    split
    · simp
    · simp
  refine ⟨fun hLE => ?_, fun hRE => ?_, by rw [hexec]; rfl⟩
  · have hlne : old.base < r.base := by
      simp only [Range.isEmpty, beq_eq_false_iff_ne, ne_eq] at hLE
      omega
    refine hfrag (⟨old.base, r.base⟩ : Range) ?_ hlne
    intro a ha
    simp only [Range.addrs, Finset.mem_Ico] at ha ⊢
    omega
  · have hrne : r.limit < old.limit := by
      simp only [Range.isEmpty, beq_eq_false_iff_ne, ne_eq] at hRE
      omega
    refine hfrag (⟨r.limit, old.limit⟩ : Range) ?_ hrne
    intro a ha
    simp only [Range.addrs, Finset.mem_Ico] at ha ⊢
    omega

/-- Witness for C9 at the scaled-down S3 scenario: the fragments [0,4) and
[6,10) are disjoint from the emptied primary and their primary re-inserts
report MEMORY, never FAIL. -/
theorem failoverDelete_recovery_reinsert_not_fail_witness :
    (mInsert (⟨[], false⟩ : MLand) ⟨0, 4⟩).1 ≠ Res.FAIL ∧
    (mInsert (⟨[], false⟩ : MLand) ⟨6, 10⟩).1 ≠ Res.FAIL ∧
    (failoverDelete (mFO (α := Unit) ⟨[⟨0, 10⟩], false⟩ ⟨[], true⟩)
        ⟨0, 0⟩ ⟨4, 6⟩).2.2.primary = (⟨[], false⟩ : MLand) := by
  have h := failoverDelete_recovery_reinsert_not_fail
    ⟨[⟨0, 10⟩], false⟩ ⟨[], true⟩ ⟨4, 6⟩ ⟨0, 0⟩ Res.MEMORY ⟨0, 10⟩
    ⟨[⟨0, 10⟩], false⟩ (by decide) (by decide) (by decide) (by decide)
    (by decide) (by decide) (by decide) (by decide)
  exact ⟨(h.1 (by decide)).2, (h.2.1 (by decide)).2, h.2.2⟩
